import Mathlib

/-
Verification of the band-name generation pipeline of `app/routes.py`
(functions `remove_punctuation`, `apply_capitalization`, `prep_bandname`,
`is_valid_bandname`, `get_bandname`, `is_band_duplicate`).

Python strings are sequences of Unicode code points; we model them as
`List Nat` of code points.  The process-wide random draws (capitalization
style, candidate choice) are made explicit parameters.
-/

namespace AppRoutes

/-- A Python string, modelled as its list of Unicode code points. -/
abbrev PyStr := List Nat

/-- Code points of a Lean string literal, used to state concrete facts. -/
def toCodes (s : String) : PyStr := s.toList.map Char.toNat

/-- Python whitespace test (`str.split` with no argument splits on these):
space, tab, newline, vertical tab, form feed, carriage return. -/
def pyIsSpace (c : Nat) : Bool :=
  c == 32 || c == 9 || c == 10 || c == 11 || c == 12 || c == 13

/-- Python `name.split()`: split on runs of whitespace, dropping empty pieces
(leading and trailing whitespace yields no words). -/
def pySplit (s : PyStr) : List PyStr :=
  (s.splitOnP pyIsSpace).filter (fun w => !w.isEmpty)

/-- Python `" ".join(ws)`. -/
def joinSpace (ws : List PyStr) : PyStr := List.intercalate [32] ws

/-- Python `" ".join(name.split())` — the whitespace-collapsing step at the
top of `is_valid_bandname` (line 72 of `app/routes.py`). -/
def pyCollapse (s : PyStr) : PyStr := joinSpace (pySplit s)

/-- Code points of the punctuation string of `remove_punctuation`
(line 40 of `app/routes.py`), in source order:
quote, hash, dollar, percent, ampersand, apostrophe, parens, star, plus,
comma, hyphen, slash, colon, semicolon, angle brackets, equals, at sign,
square brackets, backslash, caret, underscore, backquote, braces, bar,
tilde, period, question mark, exclamation mark, guillemets, em-dash. -/
def punctCodes : List Nat :=
  [34, 35, 36, 37, 38, 39, 40, 41, 42, 43, 44, 45, 47, 58, 59, 60, 61, 62,
   64, 91, 92, 93, 94, 95, 96, 123, 124, 125, 126, 46, 63, 33, 171, 187, 8212]

/-- Function `remove_punctuation` of `app/routes.py`: `str.translate` with a
table sending every punctuation character to a single space. -/
def remove_punctuation : PyStr → PyStr
  | [] => []
  | c :: cs => (if c ∈ punctCodes then 32 else c) :: remove_punctuation cs

/-- Python `str.upper` on a single code point, at the ASCII level. -/
def pyToUpper (c : Nat) : Nat := if 97 ≤ c ∧ c ≤ 122 then c - 32 else c

/-- Python `str.lower` on a single code point, at the ASCII level. -/
def pyToLower (c : Nat) : Nat := if 65 ≤ c ∧ c ≤ 90 then c + 32 else c

/-- Python `str.capitalize`: first character upper-cased, rest lower-cased. -/
def pyCapitalize : PyStr → PyStr
  | [] => []
  | c :: cs => pyToUpper c :: cs.map pyToLower

/-- Upper-case the first character of a word, leaving the rest unchanged. -/
def capFirst : PyStr → PyStr
  | [] => []
  | c :: cs => pyToUpper c :: cs

/-- Small words that conventional title-casing keeps lower-case. -/
def smallWords : List PyStr :=
  [toCodes "a", toCodes "an", toCodes "and", toCodes "as", toCodes "at",
   toCodes "but", toCodes "by", toCodes "en", toCodes "for", toCodes "if",
   toCodes "in", toCodes "of", toCodes "on", toCodes "or", toCodes "the",
   toCodes "to", toCodes "v", toCodes "via", toCodes "vs"]

/-- Model of the external `titlecase` library function used by
`apply_capitalization` (the library is a third-party dependency, not part of
this repository): the line is split at each single space or tab (empty pieces
between consecutive separators are kept), each word is lower-cased if it is a
conventional small word and otherwise gets its first character upper-cased,
the first and last word are always first-character-capitalized, and the
pieces are rejoined with single spaces.  The library's additional line-by-line
processing is omitted: it only affects inputs containing newlines and is
likewise a per-character casing transform. -/
def titlecase (s : PyStr) : PyStr :=
  List.intercalate [32]
    (((((s.splitOnP (fun c => c == 32 || c == 9)).map
        (fun w => if w.map pyToLower ∈ smallWords then w.map pyToLower
                  else capFirst w)).modifyHead capFirst).reverse.modifyHead
            capFirst).reverse)

/-- Capitalization styles drawn at random (weights 0.99 / 0.001 / 0.001 /
0.001) by `apply_capitalization` in `app/routes.py`. -/
inductive CapStyle
  | title
  | upper
  | lower
  | camel

/-- Function `apply_capitalization` of `app/routes.py`, with the random style
draw made an explicit parameter. -/
def apply_capitalization (style : CapStyle) (word : PyStr) : PyStr :=
  match style with
  | .upper => word.map pyToUpper
  | .lower => word.map pyToLower
  | .camel => (((pySplit word).map pyCapitalize)).flatten
  | .title => titlecase (word.map pyToLower)

/-- Function `prep_bandname` of `app/routes.py`. -/
def prep_bandname (style : CapStyle) (word : PyStr) : PyStr :=
  apply_capitalization style (remove_punctuation word)

/-- The `common_words` stop-word set of `is_valid_bandname`
(lines 81-112 of `app/routes.py`). -/
def common_words : List PyStr :=
  [toCodes "the", toCodes "and", toCodes "of", toCodes "in", toCodes "on",
   toCodes "at", toCodes "to", toCodes "for", toCodes "with", toCodes "from",
   toCodes "by", toCodes "as", toCodes "is", toCodes "was", toCodes "are",
   toCodes "were", toCodes "been", toCodes "be", toCodes "this",
   toCodes "that", toCodes "these", toCodes "those", toCodes "a",
   toCodes "an", toCodes "her", toCodes "his", toCodes "my", toCodes "your",
   toCodes "our", toCodes "their"]

/-- The `very_common` boundary-word set of `is_valid_bandname`
(lines 120-133 of `app/routes.py`). -/
def very_common : List PyStr :=
  [toCodes "and", toCodes "of", toCodes "the", toCodes "in", toCodes "on",
   toCodes "at", toCodes "to", toCodes "with", toCodes "from", toCodes "by",
   toCodes "are", toCodes "is"]

/-- Lower-cased word list `[w.lower() for w in name.split()]`
(line 113 of `app/routes.py`). -/
def lowerWords (name : PyStr) : List PyStr :=
  (pySplit name).map (fun w => w.map pyToLower)

/-- Body of `is_valid_bandname` after the whitespace-collapsing reassignment
of `name` (lines 74-146 of `app/routes.py`). -/
def is_valid_core (name : PyStr) : Bool :=
  if ¬(1 ≤ (pySplit name).length ∧ (pySplit name).length ≤ 4 ∧
        3 ≤ name.length ∧ name.length ≤ 50) then false
  else if ∀ w ∈ lowerWords name, w ∈ common_words then false
  else if 1 < (pySplit name).length ∧
      (lowerWords name).getLastD [] ∈ very_common then false
  else if 1 < (pySplit name).length ∧
      (lowerWords name).headD [] ∈ very_common ∧
      (lowerWords name).headD [] ≠ toCodes "the" then false
  else if 1 < (pySplit name).length ∧
      ¬(∃ w ∈ lowerWords name, 4 ≤ w.length) then false
  else true

/-- Function `is_valid_bandname` of `app/routes.py`: collapse whitespace
(line 72), then apply the quality checks. -/
def is_valid_bandname (name : PyStr) : Bool :=
  is_valid_core (pyCollapse name)

/-- The fixed fallback output of `get_bandname`. -/
def theRejects : PyStr := toCodes "The Rejects"

/-- Loop of `get_bandname` (lines 151-162 of `app/routes.py`).  `bandnames`
is the (deterministic, hence loop-invariant) result of
`re.findall(pattern, texts, re.IGNORECASE)`; `choice t` and `style t` are the
random draws of attempt `t` (`random.choice` is modelled by reduction of the
drawn index modulo the candidate count); `finalStyle` is the style drawn by
the final `prep_bandname` call on line 162.  `last` holds the most recently
sampled raw candidate; `none` at exhaustion models the `NameError` Python
would raise on line 162 with `max_tries = 0`, when `bandname` and `bandnames`
are unbound. -/
def get_bandname_go (bandnames : List PyStr) (choice : Nat → Nat)
    (style : Nat → CapStyle) (finalStyle : CapStyle) :
    Nat → Nat → Option PyStr → Option PyStr
  | 0, _, none => none
  | 0, _, some raw =>
      if bandnames = [] then some theRejects
      else some (prep_bandname finalStyle raw)
  | fuel + 1, t, _ =>
      if bandnames = [] then some theRejects
      else if is_valid_bandname (prep_bandname (style t)
          (bandnames.getD (choice t % bandnames.length) [])) then
        some (prep_bandname (style t)
          (bandnames.getD (choice t % bandnames.length) []))
      else get_bandname_go bandnames choice style finalStyle fuel (t + 1)
        (some (bandnames.getD (choice t % bandnames.length) []))

/-- Function `get_bandname` of `app/routes.py`, over the extracted candidate
list and explicit random streams. -/
def get_bandname (bandnames : List PyStr) (choice : Nat → Nat)
    (style : Nat → CapStyle) (finalStyle : CapStyle)
    (maxTries : Nat := 10) : Option PyStr :=
  get_bandname_go bandnames choice style finalStyle maxTries 0 none

/-- Python `str.strip()`: drop whitespace from both ends. -/
def pyStrip (s : PyStr) : PyStr :=
  ((s.dropWhile pyIsSpace).reverse.dropWhile pyIsSpace).reverse

/-- A row of the `ClaimedBandName` table, as read by `is_band_duplicate`:
the stored lower-cased name and the owning user's username. -/
structure BandClaim where
  band_name_lower : PyStr
  username : PyStr

/-- The normalization `bandname.lower().strip()` of `is_band_duplicate`
(line 170 of `app/routes.py`). -/
def normalizedName (bandname : PyStr) : PyStr :=
  pyStrip (bandname.map pyToLower)

/-- Function `is_band_duplicate` of `app/routes.py`.  `existing_bands` is the
process-wide real-band set; `claims` is the `ClaimedBandName` table, with
`query.filter_by(band_name_lower=normalized).first()` modelled by `find?`. -/
def is_band_duplicate (existing_bands : List PyStr) (claims : List BandClaim)
    (bandname : PyStr) : Bool × Bool × Option PyStr :=
  if normalizedName bandname ∈ existing_bands then (true, true, none)
  else
    match claims.find?
        (fun c => decide (c.band_name_lower = normalizedName bandname)) with
    | some claim => (true, false, some claim.username)
    | none => (false, false, none)

/-- A string contains two consecutive space characters somewhere. -/
def hasDoubleSpace : PyStr → Bool
  | c1 :: c2 :: rest => (c1 == 32 && c2 == 32) || hasDoubleSpace (c2 :: rest)
  | _ => false

/- Helper lemmas: words produced by `pySplit` are nonempty and whitespace-free,
and splitting is left inverse to joining such words. -/

/-- Every element of a chunk produced by `splitOnP` fails the predicate. -/
theorem splitOnP_chunk_not {p : Nat → Bool} :
    ∀ (s : PyStr), ∀ w ∈ s.splitOnP p, ∀ c ∈ w, p c = false := by
  intro s
  induction s with
  | nil =>
    intro w hw c hc
    rw [List.splitOnP_nil] at hw
    rcases List.mem_cons.mp hw with h | h
    · subst h; simp at hc
    · simp at h
  | cons a s ih =>
    intro w hw c hc
    rw [List.splitOnP_cons] at hw
    by_cases hp : p a = true
    · rw [if_pos hp] at hw
      rcases List.mem_cons.mp hw with h | h
      · subst h; simp at hc
      · exact ih w h c hc
    · rw [if_neg hp] at hw
      rcases hsp : s.splitOnP p with _ | ⟨h1, t1⟩
      · rw [hsp] at hw; simp [List.modifyHead] at hw
      · rw [hsp] at hw
        simp only [List.modifyHead] at hw
        rcases List.mem_cons.mp hw with h | h
        · subst h
          rcases List.mem_cons.mp hc with h | h
          · subst h; exact Bool.eq_false_iff.mpr hp
          · exact ih h1 (by rw [hsp]; exact List.mem_cons_self h1 t1) c h
        · exact ih w (by rw [hsp]; exact List.mem_cons_of_mem h1 h) c hc

/-- Every element of a chunk produced by `splitOnP` is an element of the
original list. -/
theorem splitOnP_chunk_subset {p : Nat → Bool} :
    ∀ (s : PyStr), ∀ w ∈ s.splitOnP p, ∀ c ∈ w, c ∈ s := by
  intro s
  induction s with
  | nil =>
    intro w hw c hc
    rw [List.splitOnP_nil] at hw
    rcases List.mem_cons.mp hw with h | h
    · subst h; simp at hc
    · simp at h
  | cons a s ih =>
    intro w hw c hc
    rw [List.splitOnP_cons] at hw
    by_cases hp : p a = true
    · rw [if_pos hp] at hw
      rcases List.mem_cons.mp hw with h | h
      · subst h; simp at hc
      · exact List.mem_cons_of_mem a (ih w h c hc)
    · rw [if_neg hp] at hw
      rcases hsp : s.splitOnP p with _ | ⟨h1, t1⟩
      · rw [hsp] at hw; simp [List.modifyHead] at hw
      · rw [hsp] at hw
        simp only [List.modifyHead] at hw
        rcases List.mem_cons.mp hw with h | h
        · subst h
          rcases List.mem_cons.mp hc with h | h
          · subst h; exact List.mem_cons_self c s
          · exact List.mem_cons_of_mem a
              (ih h1 (by rw [hsp]; exact List.mem_cons_self h1 t1) c h)
        · exact List.mem_cons_of_mem a
            (ih w (by rw [hsp]; exact List.mem_cons_of_mem h1 h) c hc)

/-- Words produced by `pySplit` are nonempty and contain no whitespace. -/
theorem pySplit_words (s : PyStr) :
    ∀ w ∈ pySplit s, w ≠ [] ∧ ∀ c ∈ w, pyIsSpace c = false := by
  intro w hw
  have h := List.mem_filter.mp hw
  refine ⟨?_, splitOnP_chunk_not s w h.1⟩
  intro hnil
  subst hnil
  simp at h

/-- Splitting is left inverse to joining a list of nonempty,
whitespace-free words with single spaces. -/
theorem pySplit_joinSpace : ∀ (ws : List PyStr),
    (∀ w ∈ ws, w ≠ [] ∧ ∀ c ∈ w, pyIsSpace c = false) →
    pySplit (joinSpace ws) = ws := by
  intro ws
  induction ws with
  | nil =>
    intro _
    simp [pySplit, joinSpace, List.intercalate, List.splitOnP_nil]
  | cons w ws ih =>
    intro h
    have hw := h w (List.mem_cons_self w ws)
    have hnosep : ∀ x ∈ w, ¬ pyIsSpace x = true := fun x hx => by
      simp [hw.2 x hx]
    have hnonempty : (!w.isEmpty) = true := by
      cases w with
      | nil => exact absurd rfl hw.1
      | cons c cs => rfl
    cases ws with
    | nil =>
      unfold pySplit
      have hjoin : joinSpace [w] = w := by
        simp [joinSpace, List.intercalate, List.intersperse]
      rw [hjoin, List.splitOnP_eq_single pyIsSpace w hnosep]
      simp [hnonempty]
    | cons w2 ws2 =>
      have hjoin : joinSpace (w :: w2 :: ws2) = w ++ 32 :: joinSpace (w2 :: ws2) := by
        simp [joinSpace, List.intercalate, List.intersperse]
      have hrec := ih (fun v hv => h v (List.mem_cons_of_mem w hv))
      unfold pySplit at hrec ⊢
      rw [hjoin,
        List.splitOnP_first pyIsSpace w hnosep 32 (by decide) (joinSpace (w2 :: ws2))]
      simp only [List.filter_cons, hnonempty, if_true, hrec]

/-- Re-splitting the collapsed form of a string recovers its word list. -/
theorem pySplit_pyCollapse (s : PyStr) : pySplit (pyCollapse s) = pySplit s :=
  pySplit_joinSpace (pySplit s) (pySplit_words s)

/-- Whitespace collapsing is idempotent. -/
theorem pyCollapse_idem (s : PyStr) : pyCollapse (pyCollapse s) = pyCollapse s := by
  show joinSpace (pySplit (pyCollapse s)) = pyCollapse s
  rw [pySplit_pyCollapse]
  rfl

/-- Claim C8: the fixed fallback output of the pipeline itself satisfies
validation: `is_valid_bandname("The Rejects")` returns true. -/
theorem fallback_name_valid : is_valid_bandname (toCodes "The Rejects") = true := by
  decide

/-- Claim C10: `is_valid_bandname` computes its verdict on the
whitespace-collapsed form of its input, so an input and its collapsed form
(split on whitespace, rejoined with single spaces) receive the same verdict. -/
theorem is_valid_whitespace_invariant (n : PyStr) :
    is_valid_bandname n = is_valid_bandname (pyCollapse n) := by
  unfold is_valid_bandname
  rw [pyCollapse_idem]

/-- Claim C1 counterexample: the input consisting of "abcd" followed by 47
spaces is accepted by `is_valid_bandname`, yet its character length is 51,
outside [3, 50]: the length bound is checked on the collapsed name, not on
the input string. -/
theorem length_bound_counterexample :
    is_valid_bandname (toCodes "abcd" ++ List.replicate 47 32) = true ∧
    ¬(3 ≤ (toCodes "abcd" ++ List.replicate 47 32).length ∧
      (toCodes "abcd" ++ List.replicate 47 32).length ≤ 50) := by
  decide

/-- Claim C1 (amended): a string accepted by `is_valid_bandname` has word
count between 1 and 4 inclusive, and its whitespace-collapsed form has
character length between 3 and 50 inclusive. -/
theorem accepted_name_bounds (n : PyStr) (h : is_valid_bandname n = true) :
    1 ≤ (pySplit n).length ∧ (pySplit n).length ≤ 4 ∧
    3 ≤ (pyCollapse n).length ∧ (pyCollapse n).length ≤ 50 := by
  unfold is_valid_bandname is_valid_core at h
  simp only [pySplit_pyCollapse] at h
  by_cases hb : 1 ≤ (pySplit n).length ∧ (pySplit n).length ≤ 4 ∧
      3 ≤ (pyCollapse n).length ∧ (pyCollapse n).length ≤ 50
  · exact hb
  · rw [if_pos hb] at h
    exact absurd h (by simp)

/-- Witness for C1's amended theorem at the concrete accepted input
"The Rejects". -/
theorem accepted_name_bounds_witness :
    1 ≤ (pySplit (toCodes "The Rejects")).length ∧
    (pySplit (toCodes "The Rejects")).length ≤ 4 ∧
    3 ≤ (pyCollapse (toCodes "The Rejects")).length ∧
    (pyCollapse (toCodes "The Rejects")).length ≤ 50 :=
  accepted_name_bounds (toCodes "The Rejects") (by decide)

/-- Claim C6: a name all of whose words lower-case into the fixed common
stop-word set is rejected by `is_valid_bandname`. -/
theorem all_common_words_invalid (n : PyStr)
    (h : ∀ w ∈ pySplit n, w.map pyToLower ∈ common_words) :
    is_valid_bandname n = false := by
  unfold is_valid_bandname is_valid_core
  simp only [lowerWords, pySplit_pyCollapse]
  by_cases hc : ¬(1 ≤ (pySplit n).length ∧ (pySplit n).length ≤ 4 ∧
      3 ≤ (pyCollapse n).length ∧ (pyCollapse n).length ≤ 50)
  · rw [if_pos hc]
  · have hD : ∀ w ∈ (pySplit n).map (fun w => w.map pyToLower),
        w ∈ common_words := by
      intro v hv
      obtain ⟨w, hw, rfl⟩ := List.mem_map.mp hv
      exact h w hw
    rw [if_neg hc, if_pos hD]

/-- Witness for C6 at the concrete all-stop-word inputs "The" and
"Of The By". -/
theorem all_common_words_invalid_witness :
    is_valid_bandname (toCodes "The") = false ∧
    is_valid_bandname (toCodes "Of The By") = false :=
  ⟨all_common_words_invalid (toCodes "The") (by decide),
   all_common_words_invalid (toCodes "Of The By") (by decide)⟩

/-- Claim C7: for a multi-word name, validation fails when the final
lower-cased word lies in the very-common-word set, and also when the first
lower-cased word lies in that set while differing from "the". -/
theorem boundary_word_invalid (n : PyStr) (h : 1 < (pySplit n).length) :
    (((pySplit n).map (fun w => w.map pyToLower)).getLastD [] ∈ very_common →
      is_valid_bandname n = false) ∧
    (((pySplit n).map (fun w => w.map pyToLower)).headD [] ∈ very_common →
      ((pySplit n).map (fun w => w.map pyToLower)).headD [] ≠ toCodes "the" →
      is_valid_bandname n = false) := by
  unfold is_valid_bandname is_valid_core
  simp only [lowerWords, pySplit_pyCollapse]
  constructor
  · intro hlast
    split_ifs with h1 h2 h3 h4 h5
    any_goals rfl
    exact absurd ⟨h, hlast⟩ h3
  · intro hfirst hne
    split_ifs with h1 h2 h3 h4 h5
    any_goals rfl
    exact absurd ⟨h, hfirst, hne⟩ h4

/-- Witness for C7 at the concrete inputs "Abcd Of" (bad final word) and
"Of Abcd" (bad first word). -/
theorem boundary_word_invalid_witness :
    is_valid_bandname (toCodes "Abcd Of") = false ∧
    is_valid_bandname (toCodes "Of Abcd") = false :=
  ⟨(boundary_word_invalid (toCodes "Abcd Of") (by decide)).1 (by decide),
   (boundary_word_invalid (toCodes "Of Abcd") (by decide)).2 (by decide)
     (by decide)⟩

/-- Claim C3: when extraction yields zero candidates, `get_bandname` returns
exactly the literal fallback "The Rejects", raising no error. -/
theorem get_bandname_empty_fallback (choice : Nat → Nat)
    (style : Nat → CapStyle) (finalStyle : CapStyle) :
    get_bandname [] choice style finalStyle 10 = some (toCodes "The Rejects") := by
  rfl

/-- Helper for C2: when candidates exist and every attempt in the remaining
window produces an invalid candidate, the retry loop falls through to
re-normalizing the raw candidate sampled on its final attempt. -/
theorem get_bandname_go_exhausted (bn : List PyStr) (choice : Nat → Nat)
    (style : Nat → CapStyle) (fs : CapStyle) (hbn : bn ≠ []) :
    ∀ fuel t last, 1 ≤ fuel →
    (∀ k, k < fuel → is_valid_bandname (prep_bandname (style (t + k))
        (bn.getD (choice (t + k) % bn.length) [])) = false) →
    get_bandname_go bn choice style fs fuel t last =
      some (prep_bandname fs (bn.getD (choice (t + fuel - 1) % bn.length) [])) := by
  intro fuel
  induction fuel with
  | zero =>
    intro t last h0 _
    exact absurd h0 (by omega)
  | succ f ih =>
    intro t last _ hinv
    have h0 := hinv 0 (Nat.succ_pos f)
    simp only [Nat.add_zero] at h0
    unfold get_bandname_go
    rw [if_neg hbn, if_neg (Bool.eq_false_iff.mp h0)]
    rcases f with _ | f
    · unfold get_bandname_go
      rw [if_neg hbn]
      norm_num
    · have harg : ∀ k, k < f + 1 → is_valid_bandname
          (prep_bandname (style (t + 1 + k))
            (bn.getD (choice (t + 1 + k) % bn.length) [])) = false := by
        intro k hk
        have heq : t + 1 + k = t + (k + 1) := by omega
        rw [heq]
        exact hinv (k + 1) (by omega)
      rw [ih (t + 1) (some (bn.getD (choice t % bn.length) [])) (by omega) harg]
      rw [show t + 1 + (f + 1) - 1 = t + (f + 1 + 1) - 1 from by omega]

/-- Claim C2: with a nonempty candidate list, if all 10 attempts of
`get_bandname` produce candidates failing validation, the call terminates by
returning (not raising) the normalization of the raw candidate sampled on the
final attempt. -/
theorem get_bandname_exhausted_returns_last (bn : List PyStr)
    (choice : Nat → Nat) (style : Nat → CapStyle) (fs : CapStyle)
    (hbn : bn ≠ [])
    (hinv : ∀ t, t < 10 → is_valid_bandname (prep_bandname (style t)
      (bn.getD (choice t % bn.length) [])) = false) :
    get_bandname bn choice style fs 10 =
      some (prep_bandname fs (bn.getD (choice 9 % bn.length) [])) := by
  have h := get_bandname_go_exhausted bn choice style fs hbn 10 0 none
    (by omega) (fun k hk => by simpa using hinv k hk)
  simpa using h

/-- Witness for C2: one candidate "a" whose preparation "A" always fails
validation; after exhausting all 10 attempts, the loop returns it anyway. -/
theorem get_bandname_exhausted_returns_last_witness :
    get_bandname [[97]] (fun _ => 0) (fun _ => CapStyle.upper)
      CapStyle.upper 10 = some [65] :=
  get_bandname_exhausted_returns_last [[97]] (fun _ => 0)
    (fun _ => CapStyle.upper) CapStyle.upper (by decide)
    (fun t _ => by
      show is_valid_bandname
        (prep_bandname CapStyle.upper ([[97]].getD (0 % [[97]].length) [])) = false
      decide)

/-- Claim C4 counterexample: `prep_bandname` does not collapse whitespace.
On the input "a--b", with the UPPER style drawn, each hyphen becomes a space
and the output "A  B" contains a run of two consecutive spaces. -/
theorem prep_double_space_counterexample :
    hasDoubleSpace (prep_bandname CapStyle.upper (toCodes "a--b")) = true := by
  decide

/-- Claim C4 (amended): `prep_bandname` replaces each punctuation character
with a single space, pointwise and length-preservingly; the whitespace runs
this can introduce are not collapsed by the normalizer itself (collapsing to
clean word boundaries happens later, inside the validator). -/
theorem remove_punctuation_pointwise (s : PyStr) :
    (remove_punctuation s).length = s.length ∧
    ∀ i, (remove_punctuation s).getD i 0 =
      if s.getD i 0 ∈ punctCodes then 32 else s.getD i 0 := by
  induction s with
  | nil =>
    refine ⟨rfl, fun i => ?_⟩
    simp [remove_punctuation, punctCodes]
  | cons c cs ih =>
    refine ⟨by simpa [remove_punctuation] using ih.1, fun i => ?_⟩
    cases i with
    | zero => simp [remove_punctuation]
    | succ j => simpa [remove_punctuation] using ih.2 j

/-- Upper-casing a code point never produces a punctuation code point. -/
theorem pyToUpper_not_punct {c : Nat} (h : c ∉ punctCodes) :
    pyToUpper c ∉ punctCodes := by
  unfold pyToUpper
  split
  · rename_i hc
    intro hmem
    simp only [punctCodes, List.mem_cons, List.not_mem_nil, or_false] at hmem
    rcases hc with ⟨h1, h2⟩
    omega
  · exact h

/-- Lower-casing a code point never produces a punctuation code point. -/
theorem pyToLower_not_punct {c : Nat} (h : c ∉ punctCodes) :
    pyToLower c ∉ punctCodes := by
  unfold pyToLower
  split
  · rename_i hc
    intro hmem
    simp only [punctCodes, List.mem_cons, List.not_mem_nil, or_false] at hmem
    rcases hc with ⟨h1, h2⟩
    omega
  · exact h

/-- The output of `remove_punctuation` contains no punctuation code point. -/
theorem remove_punctuation_not_punct (s : PyStr) :
    ∀ c ∈ remove_punctuation s, c ∉ punctCodes := by
  induction s with
  | nil => intro c hc; simp [remove_punctuation] at hc
  | cons a s ih =>
    intro c hc
    rw [remove_punctuation] at hc
    rcases List.mem_cons.mp hc with h | h
    · subst h
      by_cases hp : a ∈ punctCodes
      · rw [if_pos hp]; decide
      · rw [if_neg hp]; exact hp
    · exact ih c h

/-- Mapping a punctuation-avoiding code-point function over a
punctuation-free string keeps it punctuation-free. -/
theorem map_not_punct {f : Nat → Nat}
    (hf : ∀ c, c ∉ punctCodes → f c ∉ punctCodes) (s : PyStr)
    (hs : ∀ c ∈ s, c ∉ punctCodes) : ∀ c ∈ s.map f, c ∉ punctCodes := by
  intro c hc
  obtain ⟨d, hd, rfl⟩ := List.mem_map.mp hc
  exact hf d (hs d hd)

/-- `capFirst` keeps a punctuation-free word punctuation-free. -/
theorem capFirst_not_punct (w : PyStr) (hw : ∀ c ∈ w, c ∉ punctCodes) :
    ∀ c ∈ capFirst w, c ∉ punctCodes := by
  cases w with
  | nil => intro c hc; simp [capFirst] at hc
  | cons a ws =>
    intro c hc
    simp only [capFirst] at hc
    rcases List.mem_cons.mp hc with h | h
    · subst h; exact pyToUpper_not_punct (hw a (List.mem_cons_self a ws))
    · exact hw c (List.mem_cons_of_mem a h)

/-- `pyCapitalize` keeps a punctuation-free word punctuation-free. -/
theorem pyCapitalize_not_punct (w : PyStr) (hw : ∀ c ∈ w, c ∉ punctCodes) :
    ∀ c ∈ pyCapitalize w, c ∉ punctCodes := by
  cases w with
  | nil => intro c hc; simp [pyCapitalize] at hc
  | cons a ws =>
    intro c hc
    simp only [pyCapitalize] at hc
    rcases List.mem_cons.mp hc with h | h
    · subst h; exact pyToUpper_not_punct (hw a (List.mem_cons_self a ws))
    · exact map_not_punct (fun d hd => pyToLower_not_punct hd) ws
        (fun d hd => hw d (List.mem_cons_of_mem a hd)) c h

/-- Capitalizing the head word of a list of punctuation-free words keeps
every word punctuation-free. -/
theorem modifyHead_capFirst_not_punct (l : List PyStr)
    (hl : ∀ w ∈ l, ∀ c ∈ w, c ∉ punctCodes) :
    ∀ w ∈ l.modifyHead capFirst, ∀ c ∈ w, c ∉ punctCodes := by
  cases l with
  | nil => intro w hw; simp [List.modifyHead] at hw
  | cons a l =>
    intro w hw
    simp only [List.modifyHead] at hw
    rcases List.mem_cons.mp hw with h | h
    · subst h; exact capFirst_not_punct a (hl a (List.mem_cons_self a l))
    · exact hl w (List.mem_cons_of_mem a h)

/-- Characters of a space-joined word list: either a space or a character of
one of the words. -/
theorem mem_intercalate_space (l : List PyStr) :
    ∀ c ∈ List.intercalate [32] l, c = 32 ∨ ∃ w ∈ l, c ∈ w := by
  induction l with
  | nil => intro c hc; simp [List.intercalate] at hc
  | cons w l ih =>
    cases l with
    | nil =>
      intro c hc
      have hj : List.intercalate [32] [w] = w := by
        simp [List.intercalate, List.intersperse]
      rw [hj] at hc
      exact Or.inr ⟨w, List.mem_cons_self w [], hc⟩
    | cons w2 l2 =>
      intro c hc
      have hj : List.intercalate [32] (w :: w2 :: l2) =
          w ++ 32 :: List.intercalate [32] (w2 :: l2) := by
        simp [List.intercalate, List.intersperse]
      rw [hj] at hc
      rcases List.mem_append.mp hc with h | h
      · exact Or.inr ⟨w, List.mem_cons_self w (w2 :: l2), h⟩
      · rcases List.mem_cons.mp h with h | h
        · exact Or.inl h
        · rcases ih c h with h | ⟨v, hv, hcv⟩
          · exact Or.inl h
          · exact Or.inr ⟨v, List.mem_cons_of_mem w hv, hcv⟩

/-- The `titlecase` model keeps a punctuation-free string punctuation-free:
it only re-cases characters and rejoins words with spaces. -/
theorem titlecase_not_punct (s : PyStr) (hs : ∀ c ∈ s, c ∉ punctCodes) :
    ∀ c ∈ titlecase s, c ∉ punctCodes := by
  intro c hc
  unfold titlecase at hc
  rcases mem_intercalate_space _ c hc with h | ⟨w, hw, hcw⟩
  · subst h; decide
  · have h1 : ∀ w ∈ s.splitOnP (fun c => c == 32 || c == 9),
        ∀ c ∈ w, c ∉ punctCodes :=
      fun w hw c hcw => hs c (splitOnP_chunk_subset s w hw c hcw)
    have h2 : ∀ w ∈ (s.splitOnP (fun c => c == 32 || c == 9)).map
        (fun w => if w.map pyToLower ∈ smallWords then w.map pyToLower
                  else capFirst w), ∀ c ∈ w, c ∉ punctCodes := by
      intro w hw c hcw
      obtain ⟨v, hv, rfl⟩ := List.mem_map.mp hw
      by_cases hsm : v.map pyToLower ∈ smallWords
      · rw [if_pos hsm] at hcw
        exact map_not_punct (fun d hd => pyToLower_not_punct hd) v
          (h1 v hv) c hcw
      · rw [if_neg hsm] at hcw
        exact capFirst_not_punct v (h1 v hv) c hcw
    have h3 := modifyHead_capFirst_not_punct _ h2
    have h4 : ∀ w ∈ (((s.splitOnP (fun c => c == 32 || c == 9)).map
        (fun w => if w.map pyToLower ∈ smallWords then w.map pyToLower
                  else capFirst w)).modifyHead capFirst).reverse,
        ∀ c ∈ w, c ∉ punctCodes :=
      fun w hw => h3 w (List.mem_reverse.mp hw)
    have h5 := modifyHead_capFirst_not_punct _ h4
    exact h5 w (List.mem_reverse.mp hw) c hcw

/-- Claim C5: for every input string and every outcome of the capitalization
style draw, the normalizer output contains no character from the stripped
punctuation set. -/
theorem prep_bandname_no_punctuation (s : PyStr) (style : CapStyle) :
    ∀ c ∈ prep_bandname style s, c ∉ punctCodes := by
  intro c hc
  have hrp := remove_punctuation_not_punct s
  cases style with
  | upper =>
    simp only [prep_bandname, apply_capitalization] at hc
    exact map_not_punct (fun d hd => pyToUpper_not_punct hd) _ hrp c hc
  | lower =>
    simp only [prep_bandname, apply_capitalization] at hc
    exact map_not_punct (fun d hd => pyToLower_not_punct hd) _ hrp c hc
  | title =>
    simp only [prep_bandname, apply_capitalization] at hc
    exact titlecase_not_punct _
      (map_not_punct (fun d hd => pyToLower_not_punct hd) _ hrp) c hc
  | camel =>
    simp only [prep_bandname, apply_capitalization] at hc
    obtain ⟨w, hw, hcw⟩ := List.mem_flatten.mp hc
    obtain ⟨v, hv, rfl⟩ := List.mem_map.mp hw
    unfold pySplit at hv
    have hvsub : ∀ d ∈ v, d ∉ punctCodes := by
      intro d hd
      exact hrp d
        (splitOnP_chunk_subset _ v (List.mem_filter.mp hv).1 d hd)
    exact pyCapitalize_not_punct v hvsub c hcw

/-- Witness for C5: the letter A is in the prepared form of "a!" under the
UPPER style, hence not a punctuation character. -/
theorem prep_bandname_no_punctuation_witness : (65 : Nat) ∉ punctCodes :=
  prep_bandname_no_punctuation (toCodes "a!") CapStyle.upper 65 (by decide)

/-- Claim C9: `is_band_duplicate` compares the lower-cased, trimmed form of
the queried name: a real-band hit yields `(true, true, none)`; otherwise a
stored claim with that normalized name yields `(true, false, owner)`;
otherwise `(false, false, none)`; and any two names with equal normalized
forms receive identical results. -/
theorem is_band_duplicate_spec (eb : List PyStr) (claims : List BandClaim)
    (n : PyStr) :
    (normalizedName n ∈ eb →
      is_band_duplicate eb claims n = (true, true, none)) ∧
    (normalizedName n ∉ eb →
      ∀ cl, claims.find?
          (fun c => decide (c.band_name_lower = normalizedName n)) = some cl →
        is_band_duplicate eb claims n = (true, false, some cl.username)) ∧
    (normalizedName n ∉ eb →
      claims.find?
          (fun c => decide (c.band_name_lower = normalizedName n)) = none →
        is_band_duplicate eb claims n = (false, false, none)) ∧
    (∀ m, normalizedName m = normalizedName n →
      is_band_duplicate eb claims m = is_band_duplicate eb claims n) := by
  refine ⟨?_, ?_, ?_, ?_⟩
  · intro h
    unfold is_band_duplicate
    rw [if_pos h]
  · intro h cl hcl
    unfold is_band_duplicate
    rw [if_neg h, hcl]
  · intro h hn
    unfold is_band_duplicate
    rw [if_neg h, hn]
  · intro m h
    unfold is_band_duplicate
    rw [h]

/-- Witness for C9: with "u2" a known real band and an empty claim store,
"U2" is classified as a real band, and "u2" and "U2" receive identical
results. -/
theorem is_band_duplicate_spec_witness :
    is_band_duplicate [toCodes "u2"] [] (toCodes "U2") = (true, true, none) ∧
    is_band_duplicate [toCodes "u2"] [] (toCodes "u2") =
      is_band_duplicate [toCodes "u2"] [] (toCodes "U2") := by
  have h := is_band_duplicate_spec [toCodes "u2"] [] (toCodes "U2")
  exact ⟨h.1 (by decide), h.2.2.2 (toCodes "u2") (by decide)⟩

end AppRoutes
